import Mathlib

/-!
Verification development for the ckeditor5 plugin sources:
`packages/ckeditor5-font/src/fontfamily/fontfamilyediting.ts` (with the
`fontfamily.ts`, `fontsize.ts` and `fontcolor.ts` module files) and the
timestamp tutorial plugin of
`docs/framework/guides/creating-simple-plugin-timestamp.md`.

The plugin code is glue over the host editor framework.  We embed the data
the plugins hand to the framework (configuration objects, conversion
definitions, writer operations) and the sequence of framework calls each
plugin performs, and prove the specification's claims about them.  Framework
utilities that the plugin calls but whose sources are not among the provided
files (`normalizeOptions`, `buildDefinition`, the model writer and the view
style store) are modelled from the specification; each such definition says
so in its doc comment.
-/

/- ### Self-contained character-list string utilities (kernel-reducible). -/

/-- True exactly on the space character, the separator relevant to css font
family names. -/
def isSpaceChar (c : Char) : Bool := c = ' '

/-- Drop spaces from both ends of a character list. -/
def trimChars (s : List Char) : List Char :=
  ((s.dropWhile isSpaceChar).reverse.dropWhile isSpaceChar).reverse

/-- Split a character list at commas; structural recursion so that the kernel
can evaluate it. -/
def splitCommaAux : List Char → List Char → List (List Char)
  | [], acc => [acc.reverse]
  | c :: cs, acc =>
    if c = ',' then acc.reverse :: splitCommaAux cs [] else splitCommaAux cs (c :: acc)

/-- Split a string at commas into the comma-separated pieces. -/
def splitComma (s : String) : List String :=
  (splitCommaAux s.data []).map String.mk

/-- Trim ASCII spaces from both ends of a string. -/
def trimStr (s : String) : String := String.mk (trimChars s.data)

/-- Whether a string contains a space character. -/
def containsSpace (s : String) : Bool := s.data.any isSpaceChar

/-- The single-quote character, written by code point. -/
def singleQuote : Char := Char.ofNat 39

/-- A string holding one single quote. -/
def SQ : String := String.mk [singleQuote]

/-- Join strings with a comma-and-space separator. -/
def joinCommaSpace : List String → String
  | [] => ""
  | [x] => x
  | x :: y :: xs => x ++ ", " ++ joinCommaSpace (y :: xs)

/- ### The font family configuration data model (from `fontfamily.ts`). -/

/-- A view element definition as used by the `view` field of a font family
option: an element name, a style map and an optional priority
(`fontfamily.ts`, `FontFamilyOption.view : ViewElementDefinition`). -/
structure ViewElementDef where
  name : String
  styles : List (String × String)
  priority : Option Nat
deriving DecidableEq, Repr

/-- A font family option object (`fontfamily.ts`, `FontFamilyOption`):
a user-readable `title`, the attribute value in the `model` (absent for the
`default` option), a view element configuration and the `upcastAlso` matcher
patterns. -/
structure FontFamilyOpt where
  title : String
  model : Option String
  view : Option ViewElementDef
  upcastAlso : List ViewElementDef
deriving DecidableEq, Repr

/-- One entry of `fontFamily.options` (`fontfamily.ts`,
`options?: Array<string | FontFamilyOption>`): a plain string or a full
option object. -/
inductive FontFamilyConfigItem
  | str (s : String)
  | obj (o : FontFamilyOpt)
deriving DecidableEq, Repr

/-- The `fontFamily` configuration: the option list and the
`supportAllValues` flag (`fontfamily.ts`, `FontFamilyConfig`). -/
structure FontFamilyConfig where
  options : List FontFamilyConfigItem
  supportAllValues : Bool
deriving DecidableEq, Repr

/-- The `FONT_FAMILY` attribute key constant (`'fontFamily'`). -/
def FONT_FAMILY : String := "fontFamily"

/- ### Option normalization, modelled from the spec. -/

/-- Quote a font family name when it contains a space.  Modelled from the
spec: "The family names that consist of spaces should not have quotes (as
opposed to the CSS standard). The necessary quotes will be added
automatically in the view", with the documented rendering
`font-family:'Lucida Sans Unicode', 'Lucida Grande', sans-serif`. -/
def quoteIfNeeded (name : String) : String :=
  if containsSpace name then SQ ++ name ++ SQ else name

/-- The css rendering of a comma-separated font definition string: each name
trimmed and quoted when needed, joined by a comma and space.  Modelled from
the spec example quoted at `quoteIfNeeded`. -/
def cssFontNames (s : String) : String :=
  joinCommaSpace ((splitComma s).map (fun n => quoteIfNeeded (trimStr n)))

/-- The first comma-separated font name of a font definition string.
Modelled from the spec: "The first font name is used as the dropdown item
description in the UI". -/
def firstFontName (s : String) : String := trimStr ((splitComma s).headD "")

/-- Modelled from the spec: `normalizeOptions` of
`ckeditor5-font/src/fontfamily/utils.ts` is not among the provided sources.
Per the spec of `fontfamily.ts`: option objects are taken as they are; the
`'default'` string becomes an option that "removes the `fontFamily`
attribute" (so it carries no model value); any other string is one or more
comma-separated font names, the first of which titles the option (and is the
value the documented `execute( 'fontFamily', { value: 'Arial' } )` call
applies), rendered in the view as a `<span>` with the quoted-as-needed
`font-family` style. -/
def getOptionDefinition : FontFamilyConfigItem → Option FontFamilyOpt
  | .obj o => some o
  | .str s =>
    if s = "default" then
      some { title := "Default", model := none, view := none, upcastAlso := [] }
    else
      some { title := firstFontName s
             model := some (firstFontName s)
             view := some { name := "span"
                            styles := [("font-family", cssFontNames s)]
                            priority := some 7 }
             upcastAlso := [] }

/-- Modelled from the spec (see `getOptionDefinition`): normalization maps
every configured entry to its option-object form. -/
def normalizeOptions (opts : List FontFamilyConfigItem) : List FontFamilyOpt :=
  opts.filterMap getOptionDefinition

/-- JavaScript truthiness of an optional string, as tested by the source
filter `item => item.model`: absent and empty values are falsy. -/
def truthyStr : Option String → Bool
  | none => false
  | some s => !(s == "")

/-- The option list `FontFamilyEditing.init` computes before building the
conversion definition (source: `normalizeOptions( editor.config.get(
'fontFamily.options' ) ).filter( item => item.model )`). -/
def fontFamilyInitOptions (opts : List FontFamilyConfigItem) : List FontFamilyOpt :=
  (normalizeOptions opts).filter (fun item => truthyStr item.model)

/-- A declarative attribute-to-element conversion definition.  Modelled from
the spec: `buildDefinition` of `ckeditor5-font/src/utils.ts` is not among
the provided sources; it packages the attribute key, the model values of the
given options and the model-value-to-view map that the framework's
declarative conversion consumes. -/
structure ConversionDef where
  key : String
  values : List (Option String)
  viewMap : List (Option String × Option ViewElementDef)
deriving DecidableEq, Repr

/-- Modelled from the spec (see `ConversionDef`). -/
def buildDefinition (key : String) (options : List FontFamilyOpt) : ConversionDef :=
  { key := key
    values := options.map (fun o => o.model)
    viewMap := options.map (fun o => (o.model, o.view)) }

/- ### The framework calls performed by the plugin files. -/

/-- A call from a plugin file of this repository into the host framework,
tagged with the data the source hands over. -/
inductive FrameworkCall
  | configDefine (key : String) (defaults : FontFamilyConfig)
  | configGet (key : String)
  | schemaExtend (item : String) (allowAttr : String)
  | schemaSetAttributeProperties (key : String) (isFormatting copyOnEnter : Bool)
  | conversionAttributeToElement (d : ConversionDef)
  | conversionDowncastAttributeToElement (modelKey : String)
  | conversionUpcastElementToAttribute (viewName : String) (modelKey : String)
  | commandsAdd (name : String)
  | componentFactoryAdd (name : String)
deriving DecidableEq, Repr

/-- The nine-entry default option list the `FontFamilyEditing` constructor
passes to `editor.config.define` (source lines 40-53). -/
def fontFamilyDefaultOptions : List FontFamilyConfigItem :=
  [ .str "default",
    .str "Arial, Helvetica, sans-serif",
    .str "Courier New, Courier, monospace",
    .str "Georgia, serif",
    .str "Lucida Sans Unicode, Lucida Grande, sans-serif",
    .str "Tahoma, Geneva, sans-serif",
    .str "Times New Roman, Times, serif",
    .str "Trebuchet MS, Helvetica, sans-serif",
    .str "Verdana, Geneva, sans-serif" ]

/-- The default `fontFamily` configuration the constructor defines
(source: the `editor.config.define( FONT_FAMILY, ... )` call). -/
def fontFamilyDefaultConfig : FontFamilyConfig :=
  { options := fontFamilyDefaultOptions, supportAllValues := false }

/-- The framework calls of the `FontFamilyEditing` constructor: exactly the
default-configuration registration. -/
def fontFamilyConstructorCalls : List FrameworkCall :=
  [ .configDefine FONT_FAMILY fontFamilyDefaultConfig ]

/-- The framework calls of `FontFamilyEditing.init`, in source order: the
schema allow-list extension, the attribute-property registration, the two
configuration reads, then either the two any-value converters plus the
legacy `<font face>` compatibility upcast converter (when
`supportAllValues` holds) or the single declarative attribute-to-element
registration built from the normalized options, and finally the command
registration. -/
def fontFamilyInitCalls (cfg : FontFamilyConfig) : List FrameworkCall :=
  [ .schemaExtend "$text" FONT_FAMILY,
    .schemaSetAttributeProperties FONT_FAMILY true true,
    .configGet "fontFamily.options",
    .configGet "fontFamily.supportAllValues" ] ++
  (if cfg.supportAllValues then
    [ .conversionDowncastAttributeToElement FONT_FAMILY,
      .conversionUpcastElementToAttribute "span" FONT_FAMILY,
      .conversionUpcastElementToAttribute "font" FONT_FAMILY ]
  else
    [ .conversionAttributeToElement
        (buildDefinition FONT_FAMILY (fontFamilyInitOptions cfg.options)) ]) ++
  [ .commandsAdd FONT_FAMILY ]

/-- The framework calls of `Timestamp.init` (tutorial full code): the single
UI component-factory registration of the `'timestamp'` button. -/
def timestampInitCalls : List FrameworkCall :=
  [ .componentFactoryAdd "timestamp" ]

/-- Whether a framework call reads the configuration. -/
def isConfigGet : FrameworkCall → Bool
  | .configGet _ => true
  | _ => false

/-- Whether a framework call reads the configuration key `key`. -/
def isConfigGetKey (key : String) : FrameworkCall → Bool
  | .configGet k => k == key
  | _ => false

/-- Whether a framework call registers conversion behaviour. -/
def isConversionCall : FrameworkCall → Bool
  | .conversionAttributeToElement _ => true
  | .conversionDowncastAttributeToElement _ => true
  | .conversionUpcastElementToAttribute _ _ => true
  | _ => false

/-- The conversion registrations of a call trace. -/
def conversionCalls (trace : List FrameworkCall) : List FrameworkCall :=
  trace.filter isConversionCall

/-- The four call kinds the spec enumerates: default-configuration
registration, schema-attribute allow-list extension, declarative
attribute-to-element conversion registration, command registration. -/
def isSpecFourKind : FrameworkCall → Bool
  | .configDefine _ _ => true
  | .schemaExtend _ _ => true
  | .conversionAttributeToElement _ => true
  | .commandsAdd _ => true
  | _ => false

/-- The call kinds the plugin files actually use: the spec's four kinds
plus configuration reads, schema attribute-property setting, function-based
downcast/upcast converter registration and UI component-factory
registration. -/
def isGlueCallKind : FrameworkCall → Bool
  | .configGet _ => true
  | .schemaSetAttributeProperties _ _ _ => true
  | .conversionDowncastAttributeToElement _ => true
  | .conversionUpcastElementToAttribute _ _ => true
  | .componentFactoryAdd _ => true
  | c => isSpecFourKind c

/-- All framework calls the plugin files of this repository perform over the
plugin lifecycle: the `FontFamilyEditing` constructor and `init`, and the
`Timestamp` `init`. -/
def repoPluginCalls (cfg : FontFamilyConfig) : List FrameworkCall :=
  fontFamilyConstructorCalls ++ fontFamilyInitCalls cfg ++ timestampInitCalls

/- ### The timestamp plugin's model change, modelled from the spec.

The model writer, document, positions, ranges and selection live in the
host framework's engine, whose sources are not among the provided files;
the definitions of this section are modelled from the spec.  The document
is a character list, a position is an offset into it, a range is a start
and end offset, and the selection is the list of its (sorted, disjoint)
ranges.  Inserting text before a range, or removing content before it,
shifts the live ranges of the document selection accordingly, which is how
the tutorial's loop removes exactly the originally selected content after
the timestamp has been inserted at the selection's first position. -/

/-- A model range: start and end offsets into the document. -/
structure ModelRange where
  rstart : Nat
  rend : Nat
deriving DecidableEq, Repr

/-- A writer operation issued inside a `model.change` block: the source
callback uses `writer.insertText` and `writer.remove`. -/
inductive WriterOp
  | insertText (text : List Char) (pos : Nat)
  | remove (r : ModelRange)
deriving DecidableEq, Repr

/-- Modelled from the spec: `writer.insertText` places the text at the given
position of the document. -/
def applyInsert (text : List Char) (pos : Nat) (doc : List Char) : List Char :=
  doc.take pos ++ text ++ doc.drop pos

/-- Modelled from the spec: `writer.remove` deletes the content of the given
range from the document. -/
def applyRemove (r : ModelRange) (doc : List Char) : List Char :=
  doc.take r.rstart ++ doc.drop r.rend

/-- How a position is transformed by an insertion of `len` characters at
`pos`: positions at or after the insertion point move right.  Modelled from
the spec: the timestamp is placed "at the caret", before the selected
content, which the removal loop then deletes. -/
def shiftPosAfterInsert (pos len p : Nat) : Nat :=
  if pos ≤ p then p + len else p

/-- Transformation of a live range by an insertion. -/
def shiftRangeAfterInsert (pos len : Nat) (r : ModelRange) : ModelRange :=
  { rstart := shiftPosAfterInsert pos len r.rstart
    rend := shiftPosAfterInsert pos len r.rend }

/-- How a position is transformed by the removal of the range `[a, b)`:
positions before the removed span stay, positions inside collapse to its
start, positions after move left by its length. -/
def shiftPosAfterRemove (a b p : Nat) : Nat :=
  if p ≤ a then p else if p ≤ b then a else p - (b - a)

/-- Transformation of a live range by the removal of the range `rm`. -/
def shiftRangeAfterRemove (rm : ModelRange) (r : ModelRange) : ModelRange :=
  { rstart := shiftPosAfterRemove rm.rstart rm.rend r.rstart
    rend := shiftPosAfterRemove rm.rstart rm.rend r.rend }

/-- The selection's first position (`selection.getFirstPosition()`): the
start of its first range. -/
def firstPosition (ranges : List ModelRange) : Nat :=
  ((ranges.head?).map ModelRange.rstart).getD 0

/-- The removal loop of the timestamp execute callback
(`for ( const range of selection.getRanges() ) { writer.remove( range ); }`):
each removal is applied to the document and the remaining live ranges are
transformed by it; the issued writer operations are returned together with
the final document. -/
def removeRangesLoop : List ModelRange → List Char → List WriterOp × List Char
  | [], doc => ([], doc)
  | r :: rs, doc =>
    let rest := removeRangesLoop (rs.map (shiftRangeAfterRemove r)) (applyRemove r doc)
    (WriterOp.remove r :: rest.1, rest.2)
termination_by rs _ => rs.length
decreasing_by simp

/-- The current date, carrying its rendering (`now.toString()`); the host
environment supplies it. -/
structure JsDate where
  rendered : String
deriving DecidableEq, Repr

/-- The `toString()` rendering of a date. -/
def JsDate.toString (d : JsDate) : String := d.rendered

/-- The body of the `model.change` block of the timestamp execute callback:
insert `now.toString()` at the selection's first position, then remove every
(live) selected range.  Returns the issued writer operations in order and
the final document. -/
def timestampChangeOps (now : JsDate) (sel : List ModelRange) (doc : List Char) :
    List WriterOp × List Char :=
  let txt := (JsDate.toString now).data
  let p := firstPosition sel
  let rest := removeRangesLoop (sel.map (shiftRangeAfterInsert p txt.length))
    (applyInsert txt p doc)
  (WriterOp.insertText txt p :: rest.1, rest.2)

/-- An editor-level action of the execute callback: everything it does is a
single `model.change` block holding its writer operations. -/
inductive EditorAction
  | changeBlock (ops : List WriterOp)
deriving DecidableEq, Repr

/-- The whole timestamp button execute callback: one `model.change` block;
returns the editor actions and the final document. -/
def timestampButtonExecute (now : JsDate) (sel : List ModelRange) (doc : List Char) :
    List EditorAction × List Char :=
  let r := timestampChangeOps now sel doc
  ([EditorAction.changeBlock r.1], r.2)

/- ### Segment decomposition of a document with a selection.

A document together with a well-formed (sorted, disjoint, in-bounds)
selection is exactly a leading unselected segment followed by alternating
selected and unselected segments.  `segRanges` recovers the selection's
ranges from the decomposition. -/

/-- Alternating parts of a document after the leading segment: each entry is
a selected span followed by the unselected text up to the next selected
span. -/
abbrev SegParts := List (List Char × List Char)

/-- The document text of the alternating parts. -/
def segDoc : SegParts → List Char
  | [] => []
  | (s, t) :: ps => s ++ t ++ segDoc ps

/-- The text of the alternating parts with every selected span deleted. -/
def segKeep : SegParts → List Char
  | [] => []
  | (_, t) :: ps => t ++ segKeep ps

/-- The selection ranges of the alternating parts, the first selected span
starting at offset `k`. -/
def segRanges (k : Nat) : SegParts → List ModelRange
  | [] => []
  | (s, t) :: ps => ⟨k, k + s.length⟩ :: segRanges (k + s.length + t.length) ps

/-- The ranges the removal loop actually removes, in execution order, when
the first selected span starts at offset `k`: after a span is removed the
next one starts right after the intervening kept text. -/
def segRemoveOps (k : Nat) : SegParts → List ModelRange
  | [] => []
  | (s, t) :: ps => ⟨k, k + s.length⟩ :: segRemoveOps (k + t.length) ps

/- ### The any-value converters (`supportAllValues`), for the round trip. -/

/-- A view attribute element as created by the downcast converter: element
name, the raw value of its `style` attribute, and its priority. -/
structure ViewAttributeElement where
  name : String
  styleRaw : List Char
  priority : Nat
deriving DecidableEq, Repr

/-- Modelled from the spec: the engine's view element style lookup
(`viewElement.getStyle`) reads the value of the style declaration whose key
opens the style attribute text, i.e. of `key ++ ":" ++ value`; the engine
sources are not among the provided files.  The converters of
`_prepareAnyValueConverters` only ever produce a single declaration. -/
def getStyleValue (key : List Char) (styleRaw : List Char) : Option (List Char) :=
  if styleRaw.take (key.length + 1) = key ++ [':'] then
    some (styleRaw.drop (key.length + 1))
  else
    none

/-- The `font-family` style key as a character list. -/
def fontFamilyStyleKey : List Char := "font-family".data

/-- The downcast view callback of `_prepareAnyValueConverters` (source):
`writer.createAttributeElement( 'span', { style: 'font-family:' +
attributeValue }, { priority: 7 } )`. -/
def downcastFontFamilyView (attributeValue : List Char) : ViewAttributeElement :=
  { name := "span"
    styleRaw := "font-family:".data ++ attributeValue
    priority := 7 }

/-- The upcast model value callback of `_prepareAnyValueConverters` (source):
`( viewElement ) => viewElement.getStyle( 'font-family' )`. -/
def upcastFontFamilyValue (el : ViewAttributeElement) : Option (List Char) :=
  getStyleValue fontFamilyStyleKey el.styleRaw

/-- The upcast view matcher of `_prepareAnyValueConverters` (source): a
`span` whose style has a `font-family` declaration (matched by `/.*/`). -/
def upcastFontFamilyMatches (el : ViewAttributeElement) : Bool :=
  el.name == "span" && (getStyleValue fontFamilyStyleKey el.styleRaw).isSome

/- ### Structural shape of the plugin modules (for the inheritance and
module-state claims). -/

/-- A class declaration of a plugin file: its name, the class it extends and
the per-instance fields it declares itself (beyond those of its
superclass). -/
structure ClassDecl where
  cname : String
  superclass : Option String
  instanceFields : List String
deriving DecidableEq, Repr

/-- A source module of this repository: its path, its class declarations and
its module-level mutable (`let`/`var`) bindings. -/
structure SourceModule where
  path : String
  classes : List ClassDecl
  moduleMutableBindings : List String
deriving DecidableEq, Repr

/-- The provided source modules of this repository, transcribed: each plugin
class extends the framework's `Plugin` base class, declares no instance
fields of its own, and no module declares a module-level mutable binding. -/
def repoModules : List SourceModule :=
  [ { path := "packages/ckeditor5-font/src/fontfamily/fontfamilyediting.ts"
      classes := [{ cname := "FontFamilyEditing", superclass := some "Plugin", instanceFields := [] }]
      moduleMutableBindings := [] },
    { path := "packages/ckeditor5-font/src/fontfamily.ts"
      classes := [{ cname := "FontFamily", superclass := some "Plugin", instanceFields := [] }]
      moduleMutableBindings := [] },
    { path := "packages/ckeditor5-font/src/fontsize.ts"
      classes := [{ cname := "FontSize", superclass := some "Plugin", instanceFields := [] }]
      moduleMutableBindings := [] },
    { path := "packages/ckeditor5-font/src/fontcolor.ts"
      classes := [{ cname := "FontColor", superclass := some "Plugin", instanceFields := [] }]
      moduleMutableBindings := [] },
    { path := "docs/framework/guides/creating-simple-plugin-timestamp.md"
      classes := [{ cname := "Timestamp", superclass := some "Plugin", instanceFields := [] }]
      moduleMutableBindings := [] } ]

/- ### The editor-creation rejection handlers of the tutorial. -/

/-- A rejected editor-creation error, with the fields the tutorial touches. -/
structure JsError where
  stack : String
  message : String
deriving DecidableEq, Repr

/-- An action a rejection handler could take.  Only console logging occurs
in the sources; the other constructors exist so that their absence from the
handlers' traces is a statement, not a typing accident. -/
inductive HandlerAction
  | consoleErrorStack (e : JsError)
  | consoleErrorObject (e : JsError)
  | retryCreate
  | classifyError (e : JsError)
deriving DecidableEq, Repr

/-- Whether a handler action is a console error log. -/
def isConsoleErrorAction : HandlerAction → Bool
  | .consoleErrorStack _ => true
  | .consoleErrorObject _ => true
  | _ => false

/-- The tutorial's `.catch` handler (source:
`.catch( error => { console.error( error.stack ); } )`). -/
def tutorialCreateCatch (error : JsError) : List HandlerAction :=
  [ .consoleErrorStack error ]

/-- The full-code snippet's `.catch` handler (source:
`.catch( err => { console.error( err ); } )`). -/
def snippetCreateCatch (err : JsError) : List HandlerAction :=
  [ .consoleErrorObject err ]

/- ### Helper lemmas. -/

lemma take_len_append {α : Type} (pre rest : List α) :
    (pre ++ rest).take pre.length = pre := by
  induction pre with
  | nil => rfl
  | cons a l ih => simp [List.take_succ_cons, ih]

lemma drop_len_append {α : Type} (pre rest : List α) :
    (pre ++ rest).drop pre.length = rest := by
  induction pre with
  | nil => rfl
  | cons a l ih => simp [ih]

lemma shiftPosAfterInsert_of_ge (pos len p : Nat) (h : pos ≤ p) :
    shiftPosAfterInsert pos len p = p + len := by
  unfold shiftPosAfterInsert
  rw [if_pos h]

lemma shiftPosAfterRemove_of_ge (a b p : Nat) (hab : a ≤ b) (hp : b ≤ p) :
    shiftPosAfterRemove a b p = p - (b - a) := by
  unfold shiftPosAfterRemove
  split_ifs <;> omega

lemma segRanges_map_shiftInsert (ps : SegParts) (pos len : Nat) :
    ∀ m, pos ≤ m →
      (segRanges m ps).map (shiftRangeAfterInsert pos len) = segRanges (m + len) ps := by
  induction ps with
  | nil => intro m _; simp [segRanges]
  | cons pr ps ih =>
    intro m hm
    obtain ⟨s, t⟩ := pr
    simp only [segRanges, List.map_cons, List.cons.injEq]
    refine ⟨?_, ?_⟩
    · simp only [shiftRangeAfterInsert, ModelRange.mk.injEq,
        shiftPosAfterInsert_of_ge pos len m hm,
        shiftPosAfterInsert_of_ge pos len (m + s.length) (by omega), true_and]
      omega
    · rw [ih (m + s.length + t.length) (by omega)]
      congr 1
      omega

lemma segRanges_map_shiftRemove (ps : SegParts) (a b : Nat) (hab : a ≤ b) :
    ∀ m, b ≤ m →
      (segRanges m ps).map (shiftRangeAfterRemove ⟨a, b⟩) = segRanges (m - (b - a)) ps := by
  induction ps with
  | nil => intro m _; simp [segRanges]
  | cons pr ps ih =>
    intro m hm
    obtain ⟨s, t⟩ := pr
    simp only [segRanges, List.map_cons, List.cons.injEq]
    refine ⟨?_, ?_⟩
    · simp only [shiftRangeAfterRemove, ModelRange.mk.injEq,
        shiftPosAfterRemove_of_ge a b m hab hm,
        shiftPosAfterRemove_of_ge a b (m + s.length) hab (by omega), true_and]
      omega
    · rw [ih (m + s.length + t.length) (by omega)]
      congr 1
      omega

lemma removeRangesLoop_segments (ps : SegParts) :
    ∀ pre : List Char,
      removeRangesLoop (segRanges pre.length ps) (pre ++ segDoc ps) =
        ((segRemoveOps pre.length ps).map WriterOp.remove, pre ++ segKeep ps) := by
  induction ps with
  | nil =>
    intro pre
    simp [segRanges, segDoc, segKeep, segRemoveOps, removeRangesLoop]
  | cons pr ps ih =>
    intro pre
    obtain ⟨s, t⟩ := pr
    have hmap : (segRanges (pre.length + s.length + t.length) ps).map
        (shiftRangeAfterRemove ⟨pre.length, pre.length + s.length⟩) =
        segRanges (pre ++ t).length ps := by
      rw [segRanges_map_shiftRemove ps pre.length (pre.length + s.length) (by omega)
        (pre.length + s.length + t.length) (by omega)]
      congr 1
      simp
      omega
    have hrem : applyRemove ⟨pre.length, pre.length + s.length⟩
        (pre ++ (s ++ t ++ segDoc ps)) = (pre ++ t) ++ segDoc ps := by
      simp only [applyRemove]
      have hassoc : pre ++ (s ++ t ++ segDoc ps) = (pre ++ s) ++ (t ++ segDoc ps) := by
        simp [List.append_assoc]
      have h1 : (pre ++ (s ++ t ++ segDoc ps)).take pre.length = pre := take_len_append _ _
      have h2 : (pre ++ (s ++ t ++ segDoc ps)).drop (pre.length + s.length) =
          t ++ segDoc ps := by
        rw [hassoc, ← List.length_append]
        exact drop_len_append _ _
      rw [h1, h2]
      simp [List.append_assoc]
    simp only [segRanges, segDoc, segRemoveOps, segKeep, removeRangesLoop]
    rw [hmap, hrem, ih (pre ++ t)]
    simp [List.append_assoc]

lemma firstPosition_segRanges (k : Nat) (s t : List Char) (ps : SegParts) :
    firstPosition (segRanges k ((s, t) :: ps)) = k := by
  simp [segRanges, firstPosition]

lemma applyInsert_at_boundary (txt pre rest : List Char) :
    applyInsert txt pre.length (pre ++ rest) = pre ++ txt ++ rest := by
  simp only [applyInsert, take_len_append, drop_len_append]

lemma timestampChangeOps_segments (now : JsDate) (seg0 s t : List Char) (ps : SegParts) :
    timestampChangeOps now (segRanges seg0.length ((s, t) :: ps)) (seg0 ++ segDoc ((s, t) :: ps)) =
      (WriterOp.insertText (JsDate.toString now).data seg0.length ::
        (segRemoveOps (seg0 ++ (JsDate.toString now).data).length ((s, t) :: ps)).map WriterOp.remove,
       (seg0 ++ (JsDate.toString now).data) ++ segKeep ((s, t) :: ps)) := by
  simp only [timestampChangeOps, firstPosition_segRanges]
  have hins : applyInsert (JsDate.toString now).data seg0.length
      (seg0 ++ segDoc ((s, t) :: ps)) =
      (seg0 ++ (JsDate.toString now).data) ++ segDoc ((s, t) :: ps) := by
    rw [applyInsert_at_boundary]
  have hmap : (segRanges seg0.length ((s, t) :: ps)).map
      (shiftRangeAfterInsert seg0.length (JsDate.toString now).data.length) =
      segRanges (seg0 ++ (JsDate.toString now).data).length ((s, t) :: ps) := by
    rw [segRanges_map_shiftInsert ((s, t) :: ps) seg0.length
      (JsDate.toString now).data.length seg0.length (le_refl _)]
    congr 1
    simp
  rw [hins, hmap, removeRangesLoop_segments ((s, t) :: ps) (seg0 ++ (JsDate.toString now).data)]

lemma getStyleValue_append (key v : List Char) :
    getStyleValue key ((key ++ [':']) ++ v) = some v := by
  unfold getStyleValue
  have hlen : key.length + 1 = (key ++ [':']).length := by simp
  rw [hlen, take_len_append, drop_len_append, if_pos rfl]

/- ### Claim theorems. -/

/-- C1 counterexample: with the default nine-entry configured option list,
`FontFamilyEditing.init` hands the conversion-definition builder a list of a
different length (the normalized `'default'` entry carries no model value
and is filtered out), so the option list passed to `buildDefinition` does
not equal the list read from `editor.config.get( 'fontFamily.options' )`. -/
theorem fontFamily_options_not_passed_unmodified :
    (fontFamilyInitOptions fontFamilyDefaultOptions).length ≠
      fontFamilyDefaultOptions.length := by
  decide

/-- C1 (amended): the option list `FontFamilyEditing.init` hands to
`buildDefinition` is the configured list normalized to option objects with
every entry lacking a (truthy) model value — such as `'default'` — removed;
the kept entries are exactly the normalized entries with a model value,
unaltered and in their original order (a sublist of the normalized list). -/
theorem fontFamily_options_passed_normalized_filtered (opts : List FontFamilyConfigItem) :
    fontFamilyInitOptions opts =
      (normalizeOptions opts).filter (fun item => truthyStr item.model) ∧
    (fontFamilyInitOptions opts).Sublist (normalizeOptions opts) :=
  ⟨rfl, List.filter_sublist _⟩

/-- C2: executing the Timestamp toolbar button inserts the current time,
rendered as `now.toString()`, as text at the first position of the user's
current selection and removes every range of that selection: for any
document presented as a leading unselected segment followed by alternating
selected/unselected segments (the general form of a document with a
well-formed nonempty selection), the resulting document is the timestamp
text inserted at the selection's first position into the document from
which every selected span has been removed. -/
theorem timestamp_execute_inserts_time_and_removes_selection
    (now : JsDate) (seg0 s t : List Char) (ps : SegParts) :
    (timestampButtonExecute now (segRanges seg0.length ((s, t) :: ps))
        (seg0 ++ segDoc ((s, t) :: ps))).2 =
      applyInsert (JsDate.toString now).data
        (firstPosition (segRanges seg0.length ((s, t) :: ps)))
        (seg0 ++ segKeep ((s, t) :: ps)) := by
  simp only [timestampButtonExecute, timestampChangeOps_segments, firstPosition_segRanges,
    applyInsert_at_boundary]

/-- C3 counterexample: `FontFamilyEditing.init` performs a framework call
outside the claimed four kinds: the schema attribute-properties
registration (`editor.model.schema.setAttributeProperties`). -/
theorem fontFamily_init_call_outside_four_kinds :
    FrameworkCall.schemaSetAttributeProperties FONT_FAMILY true true ∈
      fontFamilyInitCalls fontFamilyDefaultConfig ∧
    isSpecFourKind (FrameworkCall.schemaSetAttributeProperties FONT_FAMILY true true) =
      false :=
  ⟨by decide, rfl⟩

/-- C3 (amended): every framework call made by the plugin files is one of:
the four kinds of the claim (default-configuration registration,
schema-attribute allow-list extension, declarative attribute-to-element
conversion registration, command registration) or one of the further glue
kinds the sources use — configuration reads, schema attribute-property
setting, function-based downcast/upcast converter registration and UI
component-factory registration. -/
theorem plugin_framework_calls_are_glue_kinds (cfg : FontFamilyConfig) :
    (repoPluginCalls cfg).all isGlueCallKind = true := by
  cases h : cfg.supportAllValues <;>
    simp [repoPluginCalls, fontFamilyConstructorCalls, fontFamilyInitCalls,
      timestampInitCalls, h, isGlueCallKind, isSpecFourKind]

/-- The default-normalized option list that `init` passes to
`buildDefinition` under the default configuration, written out. -/
def fontFamilyDefaultNormalized : List FontFamilyOpt :=
  [ { title := "Arial", model := some "Arial"
      view := some { name := "span"
                     styles := [("font-family", "Arial, Helvetica, sans-serif")]
                     priority := some 7 }
      upcastAlso := [] },
    { title := "Courier New", model := some "Courier New"
      view := some { name := "span"
                     styles := [("font-family",
                       SQ ++ "Courier New" ++ SQ ++ ", Courier, monospace")]
                     priority := some 7 }
      upcastAlso := [] },
    { title := "Georgia", model := some "Georgia"
      view := some { name := "span"
                     styles := [("font-family", "Georgia, serif")]
                     priority := some 7 }
      upcastAlso := [] },
    { title := "Lucida Sans Unicode", model := some "Lucida Sans Unicode"
      view := some { name := "span"
                     styles := [("font-family",
                       SQ ++ "Lucida Sans Unicode" ++ SQ ++ ", " ++
                         SQ ++ "Lucida Grande" ++ SQ ++ ", sans-serif")]
                     priority := some 7 }
      upcastAlso := [] },
    { title := "Tahoma", model := some "Tahoma"
      view := some { name := "span"
                     styles := [("font-family", "Tahoma, Geneva, sans-serif")]
                     priority := some 7 }
      upcastAlso := [] },
    { title := "Times New Roman", model := some "Times New Roman"
      view := some { name := "span"
                     styles := [("font-family",
                       SQ ++ "Times New Roman" ++ SQ ++ ", Times, serif")]
                     priority := some 7 }
      upcastAlso := [] },
    { title := "Trebuchet MS", model := some "Trebuchet MS"
      view := some { name := "span"
                     styles := [("font-family",
                       SQ ++ "Trebuchet MS" ++ SQ ++ ", Helvetica, sans-serif")]
                     priority := some 7 }
      upcastAlso := [] },
    { title := "Verdana", model := some "Verdana"
      view := some { name := "span"
                     styles := [("font-family", "Verdana, Geneva, sans-serif")]
                     priority := some 7 }
      upcastAlso := [] } ]

/-- C4: the `FontFamilyEditing` constructor attaches as the default
`fontFamily` configuration exactly the nine-entry option list (`'default'`
followed by the eight comma-separated family strings) with
`supportAllValues` set to `false`, and under the default configuration the
default-normalized option list `init` passes to `buildDefinition` is the
determined concrete list `fontFamilyDefaultNormalized`, from which the
registered declarative conversion definition is built. -/
theorem fontFamily_default_config_and_determined_normalization :
    fontFamilyConstructorCalls =
      [ FrameworkCall.configDefine "fontFamily"
          { options :=
              [ .str "default",
                .str "Arial, Helvetica, sans-serif",
                .str "Courier New, Courier, monospace",
                .str "Georgia, serif",
                .str "Lucida Sans Unicode, Lucida Grande, sans-serif",
                .str "Tahoma, Geneva, sans-serif",
                .str "Times New Roman, Times, serif",
                .str "Trebuchet MS, Helvetica, sans-serif",
                .str "Verdana, Geneva, sans-serif" ]
            supportAllValues := false } ] ∧
    fontFamilyInitOptions fontFamilyDefaultConfig.options = fontFamilyDefaultNormalized ∧
    FrameworkCall.conversionAttributeToElement
        (buildDefinition FONT_FAMILY fontFamilyDefaultNormalized) ∈
      fontFamilyInitCalls fontFamilyDefaultConfig := by
  refine ⟨rfl, by decide, by decide⟩

/-- C5: when editor creation fails, i.e. the editor-creation promise
rejects, each of the tutorial's two `.catch` handlers performs exactly one
action — logging the error (its stack in the walkthrough snippet, the error
object in the full-code snippet) to the console — and every action either
handler takes is a console error log: no recovery, retry or
error-classification action occurs. -/
theorem editor_create_rejection_only_logged (e : JsError) :
    tutorialCreateCatch e = [HandlerAction.consoleErrorStack e] ∧
    snippetCreateCatch e = [HandlerAction.consoleErrorObject e] ∧
    (tutorialCreateCatch e).all isConsoleErrorAction = true ∧
    (snippetCreateCatch e).all isConsoleErrorAction = true :=
  ⟨rfl, rfl, rfl, rfl⟩

/-- C6: the `fontFamily` configuration is read exactly once per key, and
only during `FontFamilyEditing.init`: the constructor trace performs no
configuration read, the `init` trace reads `fontFamily.options` exactly
once and `fontFamily.supportAllValues` exactly once for every
configuration, and the `Timestamp` init performs no configuration read at
all.  Since every read happens inside `init` and the registrations recorded
in the trace are values computed from the read configuration, a later
mutation of the configuration object cannot change the registered
behaviour. -/
theorem fontFamily_config_read_exactly_once_in_init (cfg : FontFamilyConfig) :
    fontFamilyConstructorCalls.countP isConfigGet = 0 ∧
    (fontFamilyInitCalls cfg).countP (isConfigGetKey "fontFamily.options") = 1 ∧
    (fontFamilyInitCalls cfg).countP (isConfigGetKey "fontFamily.supportAllValues") = 1 ∧
    timestampInitCalls.countP isConfigGet = 0 := by
  refine ⟨rfl, ?_, ?_, rfl⟩ <;>
    cases h : cfg.supportAllValues <;>
      simp [fontFamilyInitCalls, h, isConfigGetKey, List.countP_append, List.countP_cons]

/-- C7: no provided source module declares module-level mutable state, the
plugin classes are exactly `FontFamilyEditing`, `FontFamily`, `FontSize`,
`FontColor` and `Timestamp`, every one of them extends the framework's
`Plugin` base class directly (single-level inheritance), and none declares
per-instance fields of its own, so all per-plugin state is reached through
the editor instance the `Plugin` base class receives at construction. -/
theorem plugin_classes_direct_and_no_module_state :
    (repoModules.map (fun m => m.classes.map (fun c => c.cname))).flatten =
      ["FontFamilyEditing", "FontFamily", "FontSize", "FontColor", "Timestamp"] ∧
    repoModules.all (fun m => m.moduleMutableBindings.isEmpty &&
      m.classes.all (fun c =>
        (c.superclass == some "Plugin") && c.instanceFields.isEmpty)) = true := by
  decide

/-- C8: in `FontFamilyEditing.init` exactly one of the two conversion
setups runs, decided by `fontFamily.supportAllValues`: when it is true the
registered conversion behaviour consists exactly of the any-value downcast
and upcast converters plus the legacy `<font face>` compatibility upcast
converter and the declarative definition built from the configured options
is never registered — so the configured option list has no effect on the
registered conversion (second conjunct) — and when it is false the
registered conversion behaviour is exactly the single declarative
attribute-to-element definition. -/
theorem fontFamily_conversion_setup_exclusive (cfg : FontFamilyConfig)
    (opts opts2 : List FontFamilyConfigItem) :
    conversionCalls (fontFamilyInitCalls cfg) =
      (if cfg.supportAllValues then
        [ FrameworkCall.conversionDowncastAttributeToElement FONT_FAMILY,
          FrameworkCall.conversionUpcastElementToAttribute "span" FONT_FAMILY,
          FrameworkCall.conversionUpcastElementToAttribute "font" FONT_FAMILY ]
      else
        [ FrameworkCall.conversionAttributeToElement
            (buildDefinition FONT_FAMILY (fontFamilyInitOptions cfg.options)) ]) ∧
    conversionCalls (fontFamilyInitCalls { options := opts, supportAllValues := true }) =
      conversionCalls (fontFamilyInitCalls { options := opts2, supportAllValues := true }) := by
  constructor
  · cases h : cfg.supportAllValues <;>
      simp [conversionCalls, fontFamilyInitCalls, h, isConversionCall]
  · simp [conversionCalls, fontFamilyInitCalls, isConversionCall]

/-- C9: in the Timestamp execute callback everything happens inside a
single `model.change` block; within it the timestamp insertion is the first
writer operation and precedes every removal, the removals are exactly one
per selected range of the selection (deleting, range by live-transformed
range, exactly the originally selected spans), and the final document keeps
the inserted timestamp text — placed at the selection's first position,
before every selected range — and all document content outside the selected
ranges unchanged and in order. -/
theorem timestamp_change_block_order_and_frame
    (now : JsDate) (seg0 s t : List Char) (ps : SegParts) :
    timestampButtonExecute now (segRanges seg0.length ((s, t) :: ps))
        (seg0 ++ segDoc ((s, t) :: ps)) =
      ([EditorAction.changeBlock
          (WriterOp.insertText (JsDate.toString now).data seg0.length ::
            (segRemoveOps (seg0 ++ (JsDate.toString now).data).length ((s, t) :: ps)).map
              WriterOp.remove)],
       (seg0 ++ (JsDate.toString now).data) ++ segKeep ((s, t) :: ps)) := by
  simp only [timestampButtonExecute, timestampChangeOps_segments]

/-- C10: with `supportAllValues` enabled, upcast followed by downcast is a
round trip on the `font-family` style: for every view span whose style
holds `font-family: V` the upcast converter extracts `V` as the
`fontFamily` attribute value, and the downcast converter maps any attribute
value `V` to an attribute element `span` with style `'font-family:' + V` at
priority 7, whose `font-family` style value is again exactly `V`. -/
theorem fontFamily_supportAllValues_style_roundtrip
    (el : ViewAttributeElement) (v : List Char)
    (h : getStyleValue fontFamilyStyleKey el.styleRaw = some v) :
    upcastFontFamilyValue el = some v ∧
    (downcastFontFamilyView v).name = "span" ∧
    (downcastFontFamilyView v).priority = 7 ∧
    (downcastFontFamilyView v).styleRaw = "font-family:".data ++ v ∧
    upcastFontFamilyValue (downcastFontFamilyView v) = some v := by
  have hk : ['f', 'o', 'n', 't', '-', 'f', 'a', 'm', 'i', 'l', 'y', ':'] =
      fontFamilyStyleKey ++ [':'] := by decide
  refine ⟨h, rfl, rfl, rfl, ?_⟩
  simp only [upcastFontFamilyValue, downcastFontFamilyView]
  rw [hk, getStyleValue_append]

/-- C10 witness: the round trip at the concrete style value `Arial`: the
downcast of `Arial` is a priority-7 span carrying `font-family:Arial`, and
upcasting it extracts `Arial` again. -/
theorem fontFamily_supportAllValues_style_roundtrip_witness :
    upcastFontFamilyValue (downcastFontFamilyView "Arial".data) = some "Arial".data ∧
    (downcastFontFamilyView "Arial".data).priority = 7 :=
  ⟨(fontFamily_supportAllValues_style_roundtrip (downcastFontFamilyView "Arial".data)
      "Arial".data (by decide)).2.2.2.2,
   (fontFamily_supportAllValues_style_roundtrip (downcastFontFamilyView "Arial".data)
      "Arial".data (by decide)).2.2.1⟩

example : cssFontNames "Courier New, Courier, monospace" =
    SQ ++ "Courier New" ++ SQ ++ ", Courier, monospace" := by decide

example : firstFontName "Arial, Helvetica, sans-serif" = "Arial" := by decide

example : (fontFamilyInitOptions fontFamilyDefaultOptions).length = 8 := by decide

example : upcastFontFamilyMatches (downcastFontFamilyView "Georgia".data) = true := by
  decide
